import Mathlib

/-!
Verification of `v2/pkg/protocols/http/utils.go` (nuclei).

The file shallowly embeds the five operations of the source file:
`dumpResponseWithRedirectChain`, `headersToString`, `dump`,
`handleDecompression` and `rawHasBody`.  Byte buffers are modelled as
`List Nat`, strings as Lean `String`.  External capabilities that the
source delegates to (the Go standard library's `httputil.DumpResponse`,
`compress/gzip`, `http.ReadRequest`, and the `rawhttp` / `retryablehttp`
libraries) are modelled as abstract parameters or as outcome fields of
the data model, exactly where the source treats them as black boxes.
-/

namespace NucleiHttpUtils

/-! ### Redirect chain model

In Go, an `*http.Response` obtained from a redirect-following client
carries `resp.Request` (the request that produced it, a nullable
pointer) and `resp.Request.Response` (the response to the previous hop,
also nullable).  `Next` describes, for one response in the backward
chain, what the expression `resp.Request.Response` evaluates to:

* `panics`  — `resp.Request` is `nil`, so `resp.Request.Response`
  dereferences a nil pointer;
* `done`    — `resp.Request` is non-nil but `resp.Request.Response` is
  `nil`: the backward walk stops here;
* `more ro h b nx` — there is a previous response, with
  `ro` = whether `httputil.DumpResponse` succeeds on it,
  `h`  = the bytes `DumpResponse` renders (status line + headers),
  `b`  = its `Body`: `none` for a nil body, `some (bs, failed)` for a
  stream on which `ioutil.ReadAll` obtains the bytes `bs` and then
  reports an error iff `failed` (per `ReadAll`'s contract the data read
  before the error is still returned),
  and `nx` = that response's own `Request.Response` link. -/
inductive Next : Type where
  | panics : Next
  | done : Next
  | more (renderOk : Bool) (head : List Nat) (body : Option (List Nat × Bool)) (next : Next) : Next
deriving DecidableEq, Repr

/-- The final `*http.Response` handed to `dumpResponseWithRedirectChain`:
its `DumpResponse` outcome, the rendered status-line+headers bytes, and
its backward link.  (Its own body is not read by the function — the
already-read body bytes are passed separately.) -/
structure RespNode : Type where
  renderOk : Bool
  head : List Nat
  next : Next
deriving DecidableEq, Repr

/-- Result of `dumpResponseWithRedirectChain`: Go returns `([]byte, error)`
and may also panic on a nil-pointer dereference. `err` is the
`return nil, err` path, `panic` a runtime nil-dereference fault. -/
inductive DumpResult : Type where
  | panic : DumpResult
  | err : DumpResult
  | ok (bytes : List Nat) : DumpResult
deriving DecidableEq, Repr

/-- The body-handling of one loop iteration: `body, _ = ioutil.ReadAll(...)`
keeps whatever bytes were read (the error is discarded), and a nil body
contributes nothing. -/
def bodyBytesOf : Option (List Nat × Bool) → List Nat
  | none => []
  | some (bs, _) => bs

/-- The `for redirectResp != nil` loop of `dumpResponseWithRedirectChain`,
entered at a non-nil `redirectResp` with render outcome `ro`, rendered
head `h`, body `b` and link `nx`.  It returns the per-hop records in
push order (hop closest to the final response first), or `.error ()`
when the advance `redirectResp = redirectResp.Request.Response`
dereferences a nil `Request`. -/
def walk (ro : Bool) (h : List Nat) (b : Option (List Nat × Bool)) (nx : Next) :
    Except Unit (List (List Nat)) :=
  if ro then
    let record := h ++ bodyBytesOf b
    match nx with
    | .panics => .error ()
    | .done => .ok [record]
    | .more ro2 h2 b2 nx2 =>
      match walk ro2 h2 b2 nx2 with
      | .error e => .error e
      | .ok rest => .ok (record :: rest)
  else .ok []

/-- `dumpResponseWithRedirectChain(resp, body)`.  Step 1 renders the final
response (failure here is the only `return nil, err`).  The guard
`resp != nil && resp.Request != nil` makes both `panics` and `done`
skip the loop.  The records are finally emitted in reverse push order
(chronological) with no separator. -/
def dumpResponseWithRedirectChain (final : RespNode) (body : List Nat) : DumpResult :=
  if final.renderOk then
    let firstRecord := final.head ++ body
    match final.next with
    | .panics => .ok firstRecord
    | .done => .ok firstRecord
    | .more ro h b nx =>
      match walk ro h b nx with
      | .error _ => .panic
      | .ok recs => .ok (recs.reverse.flatten ++ firstRecord)
  else .err

/-! ### Well-formed chains, for stating the ordering claims -/

/-- One earlier hop of a redirect chain: its rendered status-line+headers
bytes and its body read outcome. -/
structure Hop : Type where
  head : List Nat
  body : Option (List Nat × Bool)
deriving DecidableEq, Repr

/-- The record one hop contributes to the dump. -/
def recordOf (hp : Hop) : List Nat := hp.head ++ bodyBytesOf hp.body

/-- Build the backward-link structure for the hops `hs` (given in
backward order, hop closest to the final response first), each of which
renders successfully, ending in the link `tail`. -/
def chainOfThen (hs : List Hop) (tail : Next) : Next :=
  match hs with
  | [] => tail
  | hp :: t => .more true hp.head hp.body (chainOfThen t tail)

/-- A complete well-formed backward chain: every hop renders, every
response has its `Request` set, and the earliest response's
`Request.Response` is nil (the origin request was not itself a
redirect). -/
def chainOf (hs : List Hop) : Next := chainOfThen hs Next.done

/-- Number of responses in a backward-link structure. -/
def depth : Next → Nat
  | .panics => 0
  | .done => 0
  | .more _ _ _ nx => depth nx + 1

/-- Number of records a loop outcome contributes. -/
def recLen : Except Unit (List (List Nat)) → Nat
  | .error _ => 0
  | .ok recs => recs.length

/-! ### Lemmas about the walk -/

/-- On a fully well-formed suffix of the chain, the loop collects exactly
one record per hop, in walk order. -/
theorem walk_chainOf (hp : Hop) (t : List Hop) :
    walk true hp.head hp.body (chainOf t) = .ok (recordOf hp :: t.map recordOf) := by
  induction t generalizing hp with
  | nil => rfl
  | cons hp2 t2 ih =>
    show walk true hp.head hp.body (.more true hp2.head hp2.body (chainOf t2)) = _
    rw [walk]
    simp only [if_pos rfl]
    rw [ih hp2]
    rfl

/-- When the walk reaches a hop whose `DumpResponse` fails, it breaks:
the records gathered so far (the well-formed hops `hs` before the
failing one) are kept, and whatever lies beyond the failing hop is
never visited. -/
theorem walk_chainOfThen_renderFail (hs : List Hop) (h2 : List Nat)
    (b2 : Option (List Nat × Bool)) (nx : Next) (hp : Hop) :
    walk true hp.head hp.body (chainOfThen hs (.more false h2 b2 nx)) =
      .ok ((hp :: hs).map recordOf) := by
  induction hs generalizing hp with
  | nil =>
    show walk true hp.head hp.body (.more false h2 b2 nx) = _
    rw [walk]
    simp only [if_pos rfl]
    rw [walk]
    rfl
  | cons hp2 t2 ih =>
    show walk true hp.head hp.body (.more true hp2.head hp2.body (chainOfThen t2 _)) = _
    rw [walk]
    simp only [if_pos rfl]
    rw [ih hp2]
    rfl

/-- The walk yields at most one record per response in the chain. -/
theorem recLen_walk_le (ro : Bool) (h : List Nat) (b : Option (List Nat × Bool))
    (nx : Next) : recLen (walk ro h b nx) ≤ depth nx + 1 := by
  induction nx generalizing ro h b with
  | panics => cases ro <;> simp [walk, recLen, depth]
  | done => cases ro <;> simp [walk, recLen, depth]
  | more ro2 h2 b2 nx2 ih =>
    cases ro with
    | false => simp [walk, recLen]
    | true =>
      rw [walk]
      cases hw : walk ro2 h2 b2 nx2 with
      | error e => simp [hw, recLen, depth]
      | ok rest =>
        have hb := ih ro2 h2 b2
        rw [hw] at hb
        simp only [recLen] at hb
        simp [hw, recLen, depth]
        omega

/-! ### `headersToString`

The source iterates `for header, values := range headers` over an
`http.Header`, which is a Go `map[string][]string`: the iteration order
over names is unspecified (Go randomizes it), while the `[]string`
value slices are ordered.  The model therefore takes the iteration
sequence — a list of `(name, values)` pairs — as its input; two calls
that iterate the same map in different orders are two different inputs
to the model. -/

/-- The inner `for i, value := range values` loop: write the value and,
when it is not the last one, a newline plus the repeated
`header ++ ": "` prefix. -/
def writeValues (builder : String) (header : String) : List String → String
  | [] => builder
  | [v] => builder ++ v
  | v :: v2 :: rest => writeValues (builder ++ v ++ "\n" ++ header ++ ": ") header (v2 :: rest)

/-- `headersToString`: for each name in iteration order write
`name ++ ": "`, the values via the inner loop, and a final newline. -/
def headersToString (headers : List (String × List String)) : String :=
  headers.foldl (fun b p => writeValues (b ++ p.1 ++ ": ") p.1 p.2 ++ "\n") ""

/-- Specification-side concatenation of a list of strings. -/
def strConcat : List String → String
  | [] => ""
  | s :: t => s ++ strConcat t

/-- Specification-side form of one header name's block: one full
`name: value` line per value. -/
def headerLines (name : String) (values : List String) : String :=
  strConcat (values.map fun v => name ++ ": " ++ v ++ "\n")

theorem writeValues_block (name : String) (vs : List String) (v : String) (b : String) :
    writeValues b name (v :: vs) ++ "\n" =
      b ++ (v ++ "\n" ++ strConcat (vs.map fun w => name ++ ": " ++ w ++ "\n")) := by
  induction vs generalizing b v with
  | nil => simp [writeValues, strConcat, String.append_assoc]
  | cons v2 rest ih =>
    show writeValues (b ++ v ++ "\n" ++ name ++ ": ") name (v2 :: rest) ++ "\n" = _
    rw [ih]
    simp [strConcat, String.append_assoc]

/-- The outer fold, on any starting builder state: provided every name
has at least one value, it appends one block of full lines per name, in
iteration order. -/
theorem headersToString_foldl (headers : List (String × List String)) (b : String)
    (hnz : ∀ p ∈ headers, p.2 ≠ []) :
    headers.foldl (fun acc p => writeValues (acc ++ p.1 ++ ": ") p.1 p.2 ++ "\n") b =
      b ++ strConcat (headers.map fun p => headerLines p.1 p.2) := by
  induction headers generalizing b with
  | nil => simp [strConcat]
  | cons p t ih =>
    obtain ⟨name, vs⟩ := p
    match vs, hnz ⟨name, vs⟩ (List.mem_cons_self _ _) with
    | v :: vs, _ =>
      rw [List.foldl_cons, ih _ fun q hq => hnz q (List.mem_cons_of_mem _ hq)]
      rw [writeValues_block]
      simp [strConcat, headerLines, String.append_assoc]

/-! ### `handleDecompression`

`resp.Header.Get`, `strings.ToLower`, `strings.TrimSpace` and
`strings.Contains` are modelled directly; the gzip decoder
(`gzip.NewReader` + `ioutil.ReadAll`, both from the Go standard
library) is an external capability and is a parameter: both of its
failure points make the source return the original bytes plus the
error, which the parameter's `Except` result captures. -/

/-- `strings.ToLower` (restricted to the ASCII mapping of
`Char.toLower`, which covers every header token the source compares
against). -/
def lowerStr (s : String) : String := ⟨s.data.map Char.toLower⟩

def isSpaceChar (c : Char) : Bool :=
  c == ' ' || c == '\t' || c == '\n' || c == '\r' || c == '\x0b' || c == '\x0c'

/-- `strings.TrimSpace`: drop whitespace from both ends. -/
def trimStr (s : String) : String :=
  ⟨((s.data.dropWhile isSpaceChar).reverse.dropWhile isSpaceChar).reverse⟩

def leadsWith : List Char → List Char → Bool
  | [], _ => true
  | _ :: _, [] => false
  | a :: as, b :: bs => a == b && leadsWith as bs

def containsSub (pat : List Char) : List Char → Bool
  | [] => leadsWith pat []
  | c :: t => leadsWith pat (c :: t) || containsSub pat t

/-- `strings.Contains s pat`. -/
def strContains (s pat : String) : Bool := containsSub pat.data s.data

/-- `http.Header.Get`: first stored value of the key, `""` when the key
is absent or has no values.  (The model stores keys already in their
canonical MIME form, as Go's `http.Header` does.) -/
def headerGet (headers : List (String × List String)) (key : String) : String :=
  match headers.find? (fun p => p.1 == key) with
  | some (_, v :: _) => v
  | _ => ""

/-- The content-encoding token the source inspects:
`strings.TrimSpace(strings.ToLower(resp.Header.Get("Content-Encoding")))`. -/
def encodingOf (headers : List (String × List String)) : String :=
  trimStr (lowerStr (headerGet headers "Content-Encoding"))

/-- `handleDecompression(resp, bodyOrig)`.  A `nil` response returns the
body unchanged; otherwise if the normalized `Content-Encoding`
contains `"gzip"` the body goes through the gzip decoder, falling back
to the original bytes plus the error on any decoder failure; any other
encoding returns the body unchanged.  The Go pair `([]byte, error)`
becomes `List Nat × Option String`. -/
def handleDecompression (gzipDecode : List Nat → Except String (List Nat))
    (resp : Option (List (String × List String))) (bodyOrig : List Nat) :
    List Nat × Option String :=
  match resp with
  | none => (bodyOrig, none)
  | some headers =>
    if strContains (encodingOf headers) "gzip" then
      match gzipDecode bodyOrig with
      | .error e => (bodyOrig, some e)
      | .ok bodyDec => (bodyDec, none)
    else (bodyOrig, none)

/-! ### `rawHasBody`

`http.ReadRequest` (the Go standard library's lenient request-head
parser) is an external capability and is a parameter returning either a
parse error (the source folds `io.EOF` and every other parse error into
the same `return false`) or a parsed request.  The parsed request's
body is either the `http.NoBody` sentinel or a stream; per
`ioutil.ReadAll`'s contract, reading the stream through
`io.LimitReader(·, 512)` yields the first 512 bytes when at least 512
are available (the cap stops the read before any later stream error can
surface), and otherwise all available bytes or an error when the stream
fails before its end. -/

inductive ReqBody : Type where
  | noBody : ReqBody
  | stream (bytes : List Nat) (failsAtEnd : Bool) : ReqBody
deriving DecidableEq, Repr

structure ParsedRequest : Type where
  body : ReqBody
deriving DecidableEq, Repr

/-- `ioutil.ReadAll(io.LimitReader(stream, cap))`. -/
def readLimited (cap : Nat) (bytes : List Nat) (failsAtEnd : Bool) :
    Except Unit (List Nat) :=
  if cap ≤ bytes.length then .ok (bytes.take cap)
  else if failsAtEnd then .error () else .ok bytes

/-- `rawHasBody(data)`: `false` on parse failure, `false` for the
`http.NoBody` sentinel, `false` when the capped body read fails,
otherwise `len(body) > 0`.  The return type `Bool` itself witnesses
that no error is ever propagated. -/
def rawHasBody (readRequest : String → Except Unit ParsedRequest) (data : String) : Bool :=
  match readRequest data with
  | .error _ => false
  | .ok req =>
    match req.body with
    | .noBody => false
    | .stream bytes failsAtEnd =>
      match readLimited 512 bytes failsAtEnd with
      | .error _ => false
      | .ok body => decide (0 < body.length)

/-! ### `dump`

`generatedRequest` holds either a structured `retryablehttp.Request` or
a raw request.  For the structured variant, `BodyBytes()`
(retryablehttp) reads the request's rewindable stored body without
consuming it — modelled as the `cachedBody` field — after which the
source installs a fresh reader over those bytes as `Request.Body` and
delegates to `httputil.DumpRequestOut(req, true)`, which renders the
request head and reads the body stream from its current position.  The
raw variant delegates to `rawhttp.DumpRequestRaw` over
`generators.ExpandMapValues`-expanded headers; both are external
capabilities taken as parameters. -/

/-- The structured request: retryablehttp's rewindable body source, the
current `http.Request.Body` stream (bytes plus read position, `none`
for a nil body) and the bytes `DumpRequestOut` renders for the request
head. -/
structure StructReq : Type where
  cachedBody : List Nat
  currentBody : Option (List Nat × Nat)
  head : List Nat
deriving DecidableEq, Repr

/-- The raw request variant's fields. -/
structure RawReq : Type where
  method : String
  path : String
  headers : List (String × String)
  data : String
  unsafeHeaders : List String
deriving DecidableEq, Repr

/-- `generatedRequest`, restricted to the two fields `dump` inspects. -/
inductive GeneratedRequest : Type where
  | structured (r : StructReq)
  | raw (r : RawReq)
deriving DecidableEq, Repr

/-- `httputil.DumpRequestOut(req, true)`: the head bytes followed by
whatever remains of the body stream, which the read consumes. -/
def dumpRequestOut (r : StructReq) : List Nat × StructReq :=
  match r.currentBody with
  | none => (r.head, r)
  | some (bs, pos) => (r.head ++ bs.drop pos, ⟨r.cachedBody, some (bs, bs.length), r.head⟩)

/-- `dump(req, reqURL)`.  Structured variant: read the cached body
bytes, install a fresh reader over them as `Request.Body`, dump with
the body included.  Raw variant: delegate to the raw serializer with
expanded headers; the request is untouched. -/
def dump (rawSer : RawReq → String → List Nat)
    (expand : List (String × String) → List (String × String))
    (req : GeneratedRequest) (reqURL : String) : List Nat × GeneratedRequest :=
  match req with
  | .structured r =>
    let bodyBytes := r.cachedBody
    let out := dumpRequestOut ⟨r.cachedBody, some (bodyBytes, 0), r.head⟩
    (out.1, .structured out.2)
  | .raw r =>
    (rawSer ⟨r.method, r.path, expand r.headers, r.data, r.unsafeHeaders⟩ reqURL, .raw r)

/-! ### Claim theorems -/

/-- Claim C1: for every redirect chain (given here as the list `hs` of
earlier hops in backward link order, each rendering successfully, plus
the final response's rendered head `fh` and already-read body `fb`),
`dumpResponseWithRedirectChain` returns the per-hop records
concatenated in chronological order — earliest hop's bytes first, the
final hop's bytes last — with no added separator between records. -/
theorem claim1_redirect_chain_chronological (hs : List Hop) (fh fb : List Nat) :
    dumpResponseWithRedirectChain ⟨true, fh, chainOf hs⟩ fb =
      .ok ((hs.reverse.map recordOf).flatten ++ (fh ++ fb)) := by
  cases hs with
  | nil => rfl
  | cons hp t =>
    show dumpResponseWithRedirectChain ⟨true, fh, .more true hp.head hp.body (chainOf t)⟩ fb = _
    simp only [dumpResponseWithRedirectChain, if_pos]
    rw [walk_chainOf]
    simp [List.map_reverse]

/-- Claim C2, counterexample: the claim asserts that a failing body read
on an earlier hop causes that hop's body to be omitted.  On the hop
with head `[1]` whose body stream yields the byte `7` and then fails
(per `ioutil.ReadAll`, the bytes read before the error are returned and
the source discards the error), the dump emits `[1, 7, ...]` — the
partially read body byte is included, not omitted. -/
theorem claim2_counterexample :
    dumpResponseWithRedirectChain ⟨true, [2], .more true [1] (some ([7], true)) .done⟩ [9] =
        .ok [1, 7, 2, 9] ∧
    dumpResponseWithRedirectChain ⟨true, [2], .more true [1] (some ([7], true)) .done⟩ [9] ≠
        .ok [1, 2, 9] := by
  constructor
  · decide
  · decide

/-- Claim C2 (amended): `dumpResponseWithRedirectChain` returns an error
exactly when rendering the final response's status line and headers
fails; a render failure on an earlier hop ends the backward walk early
and the partial chain gathered so far is still emitted with a nil
error; and a failure while reading an earlier hop's body does not abort
the dump — the hop's headers are emitted followed by the bytes read
before the failure (so the body is omitted only when the failure occurs
before any byte is read). -/
theorem claim2_amended_error_policy :
    (∀ (final : RespNode) (fb : List Nat),
        dumpResponseWithRedirectChain final fb = .err ↔ final.renderOk = false) ∧
    (∀ (hs : List Hop) (h2 : List Nat) (b2 : Option (List Nat × Bool)) (nx : Next)
        (fh fb : List Nat),
        dumpResponseWithRedirectChain ⟨true, fh, chainOfThen hs (.more false h2 b2 nx)⟩ fb =
          .ok ((hs.reverse.map recordOf).flatten ++ (fh ++ fb))) ∧
    (∀ (fh fb h bs : List Nat),
        dumpResponseWithRedirectChain ⟨true, fh, .more true h (some (bs, true)) .done⟩ fb =
          .ok ((h ++ bs) ++ (fh ++ fb))) := by
  refine ⟨?_, ?_, ?_⟩
  · intro final fb
    obtain ⟨ro, fh, nx⟩ := final
    cases ro with
    | false => simp [dumpResponseWithRedirectChain]
    | true =>
      simp only [dumpResponseWithRedirectChain]
      cases nx with
      | panics => simp
      | done => simp
      | more ro2 h2 b2 nx2 =>
        cases hw : walk ro2 h2 b2 nx2 <;> simp [hw]
  · intro hs h2 b2 nx fh fb
    cases hs with
    | nil =>
      show dumpResponseWithRedirectChain ⟨true, fh, .more false h2 b2 nx⟩ fb = _
      simp only [dumpResponseWithRedirectChain, if_pos]
      rw [walk]
      simp
    | cons hp t =>
      show dumpResponseWithRedirectChain
          ⟨true, fh, .more true hp.head hp.body (chainOfThen t (.more false h2 b2 nx))⟩ fb = _
      simp only [dumpResponseWithRedirectChain, if_pos]
      rw [walk_chainOfThen_renderFail]
      simp [List.map_reverse]
  · intro fh fb h bs
    show dumpResponseWithRedirectChain ⟨true, fh, .more true h (some (bs, true)) .done⟩ fb = _
    simp only [dumpResponseWithRedirectChain, if_pos]
    rw [walk]
    simp [bodyBytesOf]

/-- Claim C2 (amended), witness: the amended theorem applied to a
concrete failing final render and to a concrete chain whose second
backward hop fails to render. -/
theorem claim2_amended_witness :
    dumpResponseWithRedirectChain ⟨false, [1], .done⟩ [] = .err ∧
    dumpResponseWithRedirectChain
        ⟨true, [2], chainOfThen [⟨[1], none⟩] (.more false [0] none .done)⟩ [3] =
      .ok [1, 2, 3] := by
  constructor
  · exact (claim2_amended_error_policy.1 ⟨false, [1], .done⟩ []).mpr rfl
  · have h := claim2_amended_error_policy.2.1 [⟨[1], none⟩] [0] none .done [2] [3]
    simpa [recordOf, bodyBytesOf] using h

/-- Claim C3, counterexample: the claim asserts that an absent (nil)
preceding-request link on a non-final response is treated as the end of
the chain, with the records gathered so far still returned.  In the
source the advance is `redirectResp = redirectResp.Request.Response`
with no nil check on `Request`, so on a chain whose hop before the
final response has a nil `Request` the walk dereferences a nil pointer
(a panic) instead of returning `.ok [1, 2]`. -/
theorem claim3_counterexample :
    dumpResponseWithRedirectChain ⟨true, [2], .more true [1] none .panics⟩ [] =
        DumpResult.panic ∧
    dumpResponseWithRedirectChain ⟨true, [2], .more true [1] none .panics⟩ [] ≠
        .ok [1, 2] := by
  constructor
  · decide
  · decide

/-- Claim C3 (amended): only the final response's preceding-request link
is checked — its absence (and likewise an absent preceding response)
ends the chain safely with the final record returned.  A non-final
response reached during the walk whose preceding-request link is absent
causes a nil-pointer fault when the walk advances past it (unless its
render had already failed, which breaks the walk before the advance). -/
theorem claim3_amended_link_absence :
    (∀ (fh fb : List Nat),
        dumpResponseWithRedirectChain ⟨true, fh, .panics⟩ fb = .ok (fh ++ fb)) ∧
    (∀ (fh fb : List Nat),
        dumpResponseWithRedirectChain ⟨true, fh, .done⟩ fb = .ok (fh ++ fb)) ∧
    (∀ (fh fb h : List Nat) (b : Option (List Nat × Bool)),
        dumpResponseWithRedirectChain ⟨true, fh, .more true h b .panics⟩ fb =
          DumpResult.panic) ∧
    (∀ (fh fb h2 : List Nat) (b2 : Option (List Nat × Bool)),
        dumpResponseWithRedirectChain ⟨true, fh, .more false h2 b2 .panics⟩ fb =
          .ok (fh ++ fb)) :=
  ⟨fun _ _ => rfl, fun _ _ => rfl, fun _ _ _ _ => rfl, fun _ _ _ _ => rfl⟩

/-- Claim C4: for every finite backward-linked chain (finiteness and
acyclicity are intrinsic to the inductive chain structure) the dump
always returns a result, and the backward walk produces at most one
record per response in the chain even though no separate redirect-count
bound is enforced. -/
theorem claim4_walk_terminates (final : RespNode) (fb : List Nat) (ro : Bool)
    (h : List Nat) (b : Option (List Nat × Bool)) (nx : Next) :
    (∃ r, dumpResponseWithRedirectChain final fb = r) ∧
      recLen (walk ro h b nx) ≤ depth nx + 1 :=
  ⟨⟨_, rfl⟩, recLen_walk_le ro h b nx⟩

/-- Claim C5: for every header name with at least one value (in
particular with more than one), `headersToString` serializes the values
as repeated `Name: value` lines — each value on its own line preceded
by its own `Name: ` prefix, never joined into a single line — each line
terminated by a newline. -/
theorem claim5_headers_repeated_lines (name : String) (vs : List String) (hvs : vs ≠ []) :
    headersToString [(name, vs)] =
      strConcat (vs.map fun v => name ++ ": " ++ v ++ "\n") := by
  have h := headersToString_foldl [(name, vs)] "" ?_
  · simpa [strConcat, headerLines] using h
  · intro p hp
    rw [List.mem_singleton] at hp
    subst hp
    exact hvs

/-- Claim C5, witness: the theorem applied to the multimap entry
`"X-Foo" ↦ ["a", "b"]` yields exactly `"X-Foo: a\nX-Foo: b\n"`. -/
theorem claim5_witness :
    headersToString [("X-Foo", ["a", "b"])] = "X-Foo: a\nX-Foo: b\n" :=
  (claim5_headers_repeated_lines "X-Foo" ["a", "b"] (by decide)).trans (by decide)

/-- Claim C6, counterexample: the claim asserts that the same header
multimap always serializes with names in insertion order.  The source
iterates a Go `map[string][]string`, whose iteration order is
unspecified (and randomized), not insertion order: the two iteration
sequences below present the same multimap — they are permutations of
each other — yet serialize to different strings, so the output is not
a function of the multimap alone. -/
theorem claim6_counterexample :
    [("A", ["1"]), ("B", ["2"])].Perm [("B", ["2"]), ("A", ["1"])] ∧
    headersToString [("A", ["1"]), ("B", ["2"])] ≠
      headersToString [("B", ["2"]), ("A", ["1"])] := by
  constructor
  · decide
  · decide

/-- Claim C6 (amended): `headersToString` emits one block of
`Name: value` lines per header name, names in the order of the map
iteration sequence it is given (which for a Go map is unspecified
rather than insertion order) and each name's values in their stored
order. -/
theorem claim6_amended_iteration_order (headers : List (String × List String))
    (hnz : ∀ p ∈ headers, p.2 ≠ []) :
    headersToString headers =
      strConcat (headers.map fun p => headerLines p.1 p.2) := by
  simpa using headersToString_foldl headers "" hnz

/-- Claim C6 (amended), witness: the amended theorem applied to a
concrete two-name iteration sequence. -/
theorem claim6_amended_witness :
    headersToString [("A", ["1"]), ("B", ["2"])] = "A: 1\nB: 2\n" :=
  (claim6_amended_iteration_order [("A", ["1"]), ("B", ["2"])] (by decide)).trans (by decide)

/-- Claim C7: whenever the response's `Content-Encoding` (trimmed and
lower-cased) contains the token `"gzip"` and the gzip decoder inverts
the supplied body to `x` (the round-trip contract of the external
`compress/gzip` capability), `handleDecompression` returns exactly `x`
with a nil error; for `Content-Encoding: identity` and for an absent
header it returns the input bytes unchanged with a nil error. -/
theorem claim7_decompression_roundtrip :
    (∀ (gd : List Nat → Except String (List Nat)) (headers : List (String × List String))
        (body x : List Nat),
        strContains (encodingOf headers) "gzip" = true →
        gd body = .ok x →
        handleDecompression gd (some headers) body = (x, none)) ∧
    (∀ (gd : List Nat → Except String (List Nat)) (body : List Nat),
        handleDecompression gd (some [("Content-Encoding", ["identity"])]) body =
          (body, none)) ∧
    (∀ (gd : List Nat → Except String (List Nat)) (body : List Nat),
        handleDecompression gd (some []) body = (body, none)) := by
  refine ⟨?_, ?_, ?_⟩
  · intro gd headers body x henc hgd
    simp [handleDecompression, henc, hgd]
  · intro gd body
    have hc : strContains (encodingOf [("Content-Encoding", ["identity"])]) "gzip" = false := by
      decide
    simp [handleDecompression, hc]
  · intro gd body
    have hc : strContains (encodingOf ([] : List (String × List String))) "gzip" = false := by
      decide
    simp [handleDecompression, hc]

/-- Claim C7, witness: a decoder that inverts `[9]` to `[1, 2]` under a
`Content-Encoding: gzip` header. -/
theorem claim7_witness :
    handleDecompression (fun _ => Except.ok [1, 2])
        (some [("Content-Encoding", ["gzip"])]) [9] = ([1, 2], none) :=
  claim7_decompression_roundtrip.1 _ _ _ _ (by decide) rfl

/-- Claim C8: whenever the `Content-Encoding` contains `"gzip"` and the
gzip decoder fails on the body — covering both a failed
`gzip.NewReader` construction and a failed decompression read, which
the source handles identically — `handleDecompression` returns the
original `rawBody` bytes unchanged together with the non-nil error. -/
theorem claim8_decompression_fallback
    (gd : List Nat → Except String (List Nat)) (headers : List (String × List String))
    (body : List Nat) (e : String)
    (henc : strContains (encodingOf headers) "gzip" = true)
    (hgd : gd body = .error e) :
    handleDecompression gd (some headers) body = (body, some e) := by
  simp [handleDecompression, henc, hgd]

/-- Claim C8, witness: a failing decoder under an `x-gzip` header (which
qualifies by substring match) leaves the body bytes unchanged and
reports the error. -/
theorem claim8_witness :
    handleDecompression (fun _ => Except.error "bad")
        (some [("Content-Encoding", ["x-gzip"])]) [9] = ([9], some "bad") :=
  claim8_decompression_fallback _ _ _ _ (by decide) rfl

/-- Claim C9: for every input string, `rawHasBody` returns `false`
whenever the parse of the request head fails (the source folds `io.EOF`
and every other parse error into the same branch), or the parsed
request carries the `http.NoBody` sentinel, or the capped body read
fails; otherwise it returns `true` exactly when at least one byte was
read, the read being capped at 512 bytes.  Its `Bool` return type shows
no error is ever propagated. -/
theorem claim9_rawHasBody_policy (p : String → Except Unit ParsedRequest) (s : String) :
    (p s = .error () → rawHasBody p s = false) ∧
    (∀ req, p s = .ok req → req.body = .noBody → rawHasBody p s = false) ∧
    (∀ bytes failsAtEnd, p s = .ok ⟨.stream bytes failsAtEnd⟩ →
        readLimited 512 bytes failsAtEnd = .error () → rawHasBody p s = false) ∧
    (∀ bytes failsAtEnd bs, p s = .ok ⟨.stream bytes failsAtEnd⟩ →
        readLimited 512 bytes failsAtEnd = .ok bs →
        ((rawHasBody p s = true ↔ 0 < bs.length) ∧ bs.length ≤ 512)) := by
  refine ⟨?_, ?_, ?_, ?_⟩
  · intro hp
    simp [rawHasBody, hp]
  · intro req hp hb
    simp [rawHasBody, hp, hb]
  · intro bytes failsAtEnd hp hr
    simp [rawHasBody, hp, hr]
  · intro bytes failsAtEnd bs hp hr
    constructor
    · simp [rawHasBody, hp, hr]
    · rw [readLimited] at hr
      by_cases hc : 512 ≤ bytes.length
      · rw [if_pos hc] at hr
        cases hr
        simp
      · rw [if_neg hc] at hr
        cases failsAtEnd with
        | true =>
          rw [if_pos rfl] at hr
          exact Except.noConfusion hr
        | false =>
          rw [if_neg Bool.false_ne_true] at hr
          cases hr
          omega

/-- Claim C9, witness: the theorem applied to a parser producing a
one-byte body stream. -/
theorem claim9_witness :
    (rawHasBody (fun _ => Except.ok ⟨ReqBody.stream [7] false⟩) "x" = true ↔
        0 < ([7] : List Nat).length) ∧
      ([7] : List Nat).length ≤ 512 :=
  (claim9_rawHasBody_policy (fun _ => Except.ok ⟨ReqBody.stream [7] false⟩) "x").2.2.2
    [7] false [7] rfl rfl

/-- Claim C10: dumping a structured generated request twice in
succession produces byte-identical output both times — the first dump
replaces the request's body with a fresh rewindable stream over the
cached body bytes, so it is not permanently consumed. -/
theorem claim10_dump_idempotent (rawSer : RawReq → String → List Nat)
    (expand : List (String × String) → List (String × String))
    (r : StructReq) (url : String) :
    (dump rawSer expand (.structured r) url).1 =
      (dump rawSer expand ((dump rawSer expand (.structured r) url).2) url).1 := by
  simp [dump, dumpRequestOut]

end NucleiHttpUtils
